import Mathlib

/-!
MeetingSync transcript-analysis pipeline: a shallow embedding.

This file embeds the deterministic transcript-analysis engine of the
MeetingSync repository (src/services/meeting-processor.js and
src/services/TextProcessor.js) as executable Lean definitions and proves
properties of the embedded code.

Modelling conventions:
* JavaScript strings are modelled as `String` / `List Char` (the inputs are
  ASCII per the specification), string indices as `Nat`.
* JavaScript numbers are modelled as exact rationals `ℚ`; all constants
  appearing in the code (0.1, 0.15, 0.3, ...) are taken exactly.
* Each regular expression used by the code is compiled by hand into an
  executable matcher with JavaScript `exec`-loop semantics: matches are
  found leftmost-first, and for a global regex the next search resumes at
  the end of the previous match.
* `processMeeting`'s `transcript` argument is `Option String` (`none`
  models a missing or non-string argument); thrown errors are modelled with
  `Except String`.  The wall-clock `processedAt` timestamp is environmental
  and is omitted from the result record.
-/

namespace MeetingSync

abbrev Chars := List Char

/-- JavaScript regex `\s` character class (ASCII part). -/
def jsSpace (c : Char) : Bool :=
  c = ' ' || c = '\t' || c = '\n' || c = '\r' || c = '\x0b' || c = '\x0c'

/-- JavaScript regex `\w` character class: `[A-Za-z0-9_]`. -/
def isWordChar (c : Char) : Bool :=
  c.isAlpha || c.isDigit || c = '_'

/-- Zero-width `\b` immediately before a word character at position `p`:
the previous character must not be a word character (or `p = 0`). -/
def boundaryBefore (l : Chars) (p : Nat) : Bool :=
  match p with
  | 0 => true
  | q + 1 =>
    match l.get? q with
    | some c => !isWordChar c
    | none => true

/-- Case-insensitive literal prefix test (`kw` is compared lowercased). -/
def prefixCI : Chars → Chars → Bool
  | [], _ => true
  | _ :: _, [] => false
  | k :: ks, c :: cs => (k.toLower = c.toLower) && prefixCI ks cs

/-- `hay.includes needle` (substring containment, as JS `String.includes`). -/
def containsSub (hay needle : Chars) : Bool :=
  (List.range (hay.length + 1)).any fun p => needle.isPrefixOf (hay.drop p)

/-- `substring`-style slice `[s, e)` with JS clamping. -/
def subList (l : Chars) (s e : Nat) : Chars :=
  (l.drop s).take (e - s)

/-- JS `String.trim`. -/
def jsTrim (l : Chars) : Chars :=
  ((l.dropWhile jsSpace).reverse.dropWhile jsSpace).reverse

/-- `replace(/\s+/g, ' ')`: collapse each whitespace run to a single space.
The boolean records whether the previous character was part of a run. -/
def collapseWsGo : Chars → Bool → Chars
  | [], _ => []
  | c :: cs, inRun =>
    if jsSpace c then
      if inRun then collapseWsGo cs true else ' ' :: collapseWsGo cs true
    else c :: collapseWsGo cs false

def collapseWs (l : Chars) : Chars := collapseWsGo l false

/-- JS `split(' ')` (split on every single space character). -/
def splitSpaceGo : Chars → Chars → List Chars
  | [], seg => [seg.reverse]
  | c :: cs, seg =>
    if c = ' ' then seg.reverse :: splitSpaceGo cs []
    else splitSpaceGo cs (c :: seg)

def splitSpace (l : Chars) : List Chars := splitSpaceGo l []

/-- JS `split(/[.!?]+/)`: split on runs of terminal punctuation. -/
def isPunctSplit (c : Char) : Bool := c = '.' || c = '!' || c = '?'

def splitPunctGo : Chars → Chars → Bool → List Chars
  | [], seg, _ => [seg.reverse]
  | c :: cs, seg, lastPunct =>
    if isPunctSplit c then
      if lastPunct then splitPunctGo cs seg true
      else seg.reverse :: splitPunctGo cs [] true
    else splitPunctGo cs (c :: seg) false

def splitPunct (l : Chars) : List Chars := splitPunctGo l [] false

/-- `Array.join(sep)` on character lists. -/
def joinSep (sep : Chars) : List Chars → Chars
  | [] => []
  | [x] => x
  | x :: xs => x ++ sep ++ joinSep sep xs

/-- First index `≥ 0` at which `needle` occurs in `hay`. -/
def firstIdx (hay needle : Chars) : Option Nat :=
  ((List.range (hay.length + 1)).filter fun p => needle.isPrefixOf (hay.drop p)).head?

/-- `a` occurs in `hay` strictly before `b` does. -/
def appearsBefore (a b hay : Chars) : Bool :=
  match firstIdx hay a, firstIdx hay b with
  | some i, some j => i < j
  | _, _ => false

/-! ## Regex scan machinery

A hand-compiled pattern is a function `matchAt : Chars → Nat → Option (Nat × α)`
returning, when the pattern matches starting exactly at the given position,
the total match length and the captured payload.  A global `exec` loop is
then: take the leftmost match, resume searching at its end. -/

structure RxMatch (α : Type) where
  pos : Nat
  len : Nat
  val : α
deriving DecidableEq, Repr

/-- JS global-`exec` selection: from the (position-sorted) list of all
single-position matches keep the leftmost, then the leftmost starting at or
after the previous match end, and so on. -/
def selectFrom {α : Type} (cursor : Nat) : List (RxMatch α) → List (RxMatch α)
  | [] => []
  | m :: ms =>
    if cursor ≤ m.pos then m :: selectFrom (m.pos + m.len) ms
    else selectFrom cursor ms

def scanWith {α : Type} (matchAt : Chars → Nat → Option (Nat × α)) (l : Chars) :
    List (RxMatch α) :=
  selectFrom 0 <| (List.range (l.length + 1)).filterMap fun p =>
    (matchAt l p).map fun r => ⟨p, r.1, r.2⟩

/-- Count of non-overlapping occurrences of `needle` (JS `match(re, 'g').length`
for a literal pattern). -/
def countOccur (needle hay : Chars) : Nat :=
  (scanWith (fun l p =>
    if needle ≠ [] && needle.isPrefixOf (l.drop p) then some (needle.length, ()) else none) hay).length

/-! ## Ticket-mention extraction (meeting-processor.js, extractTicketMentions)

The code applies four patterns in order:
```
/\b([A-Z]{2,10}-\d+)\b/g           Standard format: PROJ-123
/\bticket\s+([A-Z]{2,10}-\d+)/gi   "ticket PROJ-123"
/\bissue\s+([A-Z]{2,10}-\d+)/gi    "issue PROJ-123"
/\b([A-Z]{2,10})\s+(\d+)\b/g       "PROJ 123" (separated)
```
and deduplicates ticket ids with a (case-sensitive) `Set`. -/

/-- `\b([A-Z]{2,10}-\d+)\b` at position `p`.  Backtracking analysis: the
`[A-Z]{2,10}` block can only succeed on the full maximal uppercase run
(shorter prefixes are followed by another uppercase letter, not `-`), and the
trailing `\b` fails exactly when the character after the maximal digit run is
a word character. -/
def matchTicketStd (l : Chars) (p : Nat) : Option (Nat × String) :=
  if !boundaryBefore l p then none else
  let rest := l.drop p
  let u := rest.takeWhile Char.isUpper
  if u.length < 2 || 10 < u.length then none else
  match rest.drop u.length with
  | '-' :: rest3 =>
    let d := rest3.takeWhile Char.isDigit
    if d.isEmpty then none else
    match rest3.drop d.length with
    | [] => some (u.length + 1 + d.length, ⟨u ++ '-' :: d⟩)
    | c :: _ =>
      if isWordChar c then none else some (u.length + 1 + d.length, ⟨u ++ '-' :: d⟩)
  | _ => none

/-- `\bKW\s+([A-Z]{2,10}-\d+)` with the `i` flag (`KW` is `ticket` or
`issue`).  Case-insensitive, and note: no trailing `\b`, and the captured id
keeps its source casing. -/
def matchTicketPrefixed (kw : Chars) (l : Chars) (p : Nat) : Option (Nat × String) :=
  if !boundaryBefore l p then none else
  let rest := l.drop p
  if !prefixCI kw rest then none else
  let rest1 := rest.drop kw.length
  let sp := (rest1.takeWhile jsSpace).length
  if sp = 0 then none else
  let rest2 := rest1.drop sp
  let u := rest2.takeWhile Char.isAlpha
  if u.length < 2 || 10 < u.length then none else
  match rest2.drop u.length with
  | '-' :: rest3 =>
    let d := rest3.takeWhile Char.isDigit
    if d.isEmpty then none else
    some (kw.length + sp + u.length + 1 + d.length, ⟨u ++ '-' :: d⟩)
  | _ => none

/-- `\b([A-Z]{2,10})\s+(\d+)\b`: the separated "PROJ 123" format; the code
joins the two groups with a dash. -/
def matchTicketSeparated (l : Chars) (p : Nat) : Option (Nat × String) :=
  if !boundaryBefore l p then none else
  let rest := l.drop p
  let u := rest.takeWhile Char.isUpper
  if u.length < 2 || 10 < u.length then none else
  let rest1 := rest.drop u.length
  let sp := (rest1.takeWhile jsSpace).length
  if sp = 0 then none else
  let rest2 := rest1.drop sp
  let d := rest2.takeWhile Char.isDigit
  if d.isEmpty then none else
  match rest2.drop d.length with
  | [] => some (u.length + sp + d.length, ⟨u ++ '-' :: d⟩)
  | c :: _ =>
    if isWordChar c then none else some (u.length + sp + d.length, ⟨u ++ '-' :: d⟩)

/-- All matches of the four ticket patterns, in the order the code scans
them (pattern-major, position-ascending within one pattern). -/
def ticketPatternMatches (t : Chars) : List (RxMatch String) :=
  scanWith matchTicketStd t
    ++ scanWith (matchTicketPrefixed "ticket".data) t
    ++ scanWith (matchTicketPrefixed "issue".data) t
    ++ scanWith matchTicketSeparated t

structure TicketMention where
  ticketId : String
  context : String
  position : Nat
  confidence : ℚ
deriving DecidableEq, Repr

/-- `extractMentionContext`: 150 characters of context on each side. -/
def extractMentionContext (t : Chars) (position : Nat) (ticketId : String) : String :=
  ⟨jsTrim (subList t (position - 150) (min t.length (position + ticketId.length + 150)))⟩

/-- `test` of `\b(alt|alt|...)\b` with the `i` flag: some alternative occurs
somewhere in `s` delimited by word boundaries. -/
def testWordAlts (alts : List String) (s : String) : Bool :=
  (List.range (s.data.length + 1)).any fun p =>
    boundaryBefore s.data p && alts.any fun a =>
      prefixCI a.data (s.data.drop p) &&
      (match s.data.drop (p + a.data.length) with
       | [] => true
       | c :: _ => !isWordChar c)

/-- Shared base-plus-increment confidence loop: starting from `base`, add
`step` for each indicator group that tests positive on `text`. -/
def addIndicators (inds : List (List String)) (step : ℚ) (base : ℚ) (text : String) : ℚ :=
  inds.foldl (fun conf ind => if testWordAlts ind text then conf + step else conf) base

def mentionIndicators : List (List String) :=
  [["fix", "close", "resolve", "complete", "implement", "work on", "update", "review"],
   ["bug", "issue", "task", "story", "epic"],
   ["jira", "ticket", "card"],
   ["assigned", "responsible", "owner"]]

/-- `calculateMentionConfidence`: base 0.5, step 0.1 per indicator group,
clamped at 1.0 (the `ticketId` argument is unused, as in the source). -/
def calculateMentionConfidence (context : String) (_ticketId : String) : ℚ :=
  min (addIndicators mentionIndicators (1/10) (1/2) context) 1

def mkMention (t : Chars) (pos : Nat) (tid : String) : TicketMention :=
  let context := extractMentionContext t pos tid
  { ticketId := tid
    context := context
    position := pos
    confidence := calculateMentionConfidence context tid }

/-- The `exec` loops share one `mentions : Set` of already-seen ids (exact
string comparison); only unseen ids produce a detail record. -/
def ticketLoop (t : Chars) : List (RxMatch String) → List String → List TicketMention
  | [], _ => []
  | m :: ms, seen =>
    if m.val ∈ seen then ticketLoop t ms seen
    else mkMention t m.pos m.val :: ticketLoop t ms (m.val :: seen)

def extractTicketMentions (transcript : String) : List TicketMention :=
  ticketLoop transcript.data (ticketPatternMatches transcript.data) []

/-- Pure projection of the dedup loop onto ticket ids: keep the first
occurrence of each id. -/
def firstWins : List String → List String → List String
  | [], _ => []
  | s :: ss, seen =>
    if s ∈ seen then firstWins ss seen else s :: firstWins ss (s :: seen)

/-- The id shape all four patterns produce: 2–10 letters, a dash, then at
least one digit (uppercase is NOT guaranteed: the `i`-flagged patterns
capture source casing). -/
def ticketIdShapeB (s : String) : Bool :=
  let u := s.data.takeWhile Char.isAlpha
  let rest := s.data.drop u.length
  decide (2 ≤ u.length) && decide (u.length ≤ 10) &&
  (match rest with
   | '-' :: d => !d.isEmpty && d.all Char.isDigit
   | _ => false)

/-! ## Basic summary generation (meeting-processor.js, generateBasicSummary) -/

structure ScoredSentence where
  sentence : String
  score : ℚ
  index : Nat
deriving DecidableEq, Repr

def summaryKeywords : List String :=
  ["decided", "agreed", "will", "should", "must", "important", "action", "next",
   "follow", "issue", "problem", "solution"]

/-- Per-sentence score: positional bonuses, +0.1 per keyword contained in the
lowercased sentence, and a length penalty.  `n` is the sentence count, `i`
the sentence index, `s` the raw (untrimmed) sentence text.  The float
comparisons `index < n * 0.3` and `index > n * 0.7` are exact at every
sentence count (integer vs. small-decimal product; the double rounding error
is far below the 0.1 distance to the nearest integer), so they are written
denominator-cleared over the integers. -/
def scoreSentence (n i : Nat) (s : Chars) : ℚ :=
  let s1 : ℚ := if 10 * i < 3 * n then 0 + 3/10 else 0
  let s2 := if 7 * n < 10 * i then s1 + 1/5 else s1
  let lower := s.map Char.toLower
  let s3 := summaryKeywords.foldl
    (fun sc kw => if containsSub lower kw.data then sc + 1/10 else sc) s2
  if s.length < 20 || 200 < s.length then s3 - 1/10 else s3

/-- `transcript.split(/[.!?]+/).filter(s => s.trim().length > 10)`. -/
def qualSentences (t : Chars) : List Chars :=
  (splitPunct t).filter fun s => 10 < (jsTrim s).length

def summaryScored (sentences : List Chars) : List ScoredSentence :=
  sentences.mapIdx fun i s =>
    { sentence := ⟨jsTrim s⟩, score := scoreSentence sentences.length i s, index := i }

/-- "a may be placed before b" for the stable sort with comparator
`(a, b) => b.score - a.score`. -/
def scoreDescRel (a b : ScoredSentence) : Prop := b.score ≤ a.score

instance : DecidableRel scoreDescRel :=
  fun a b => inferInstanceAs (Decidable (b.score ≤ a.score))

instance : IsTotal ScoredSentence scoreDescRel := ⟨fun a b => le_total b.score a.score⟩

instance : IsTrans ScoredSentence scoreDescRel := ⟨fun _ _ _ h1 h2 => le_trans h2 h1⟩

/-- "a may be placed before b" for the comparator `(a, b) => a.index - b.index`. -/
def indexAscRel (a b : ScoredSentence) : Prop := a.index ≤ b.index

instance : DecidableRel indexAscRel :=
  fun a b => inferInstanceAs (Decidable (a.index ≤ b.index))

instance : IsTotal ScoredSentence indexAscRel := ⟨fun a b => le_total a.index b.index⟩

instance : IsTrans ScoredSentence indexAscRel := ⟨fun _ _ _ h1 h2 => le_trans h1 h2⟩

/-- `Math.ceil(n * 0.3)` (exact for every sentence count, see the float
analysis in the comment of `scoreSentence`). -/
def ceilNat3div10 (n : Nat) : Nat := (3 * n + 9) / 10

/-- Top-sentence selection: stable sort by score descending, slice, then
stable re-sort by original index ascending. -/
def summaryTop (sentences : List Chars) : List ScoredSentence :=
  List.insertionSort indexAscRel
    ((List.insertionSort scoreDescRel (summaryScored sentences)).take
      (min 5 (ceilNat3div10 sentences.length)))

def msgTooShort : String := "Meeting transcript too short to summarize."
def msgUnable : String := "Unable to generate meaningful summary."

def generateBasicSummary (transcript : String) (maxLength : Option Nat) : String :=
  -- `!transcript || transcript.length < 50` (the empty string has length 0)
  if transcript.data.length < 50 then msgTooShort else
  let sentences := qualSentences transcript.data
  if sentences.length ≤ 3 then
    -- `sentences.join('. ').trim() + '.'` — note: no truncation on this branch
    ⟨jsTrim (joinSep ". ".data sentences) ++ ".".data⟩
  else
    let summary := joinSep ". ".data ((summaryTop sentences).map (·.sentence.data))
    -- `summary.length > maxLength`: false when maxLength is undefined
    -- (a comparison with undefined is false), so no truncation then
    let summary2 :=
      match maxLength with
      | some m => if m < summary.length then summary.take (m - 3) ++ "...".data else summary
      | none => summary
    if summary2.isEmpty then msgUnable else ⟨summary2⟩

/-- `generateAISummary` is a placeholder that falls back to the basic
summary. -/
def generateAISummary (transcript : String) (maxLength : Option Nat) : String :=
  generateBasicSummary transcript maxLength

/-! ## Action items and key decisions (meeting-processor.js)

The three action patterns (and the analogous decision patterns) share the
shape `/(?:^|\.|;)\s*([^.;]*(?:KW1|KW2|...).*?)(?:\.|;|$)/gi`.

Backtracking analysis, used by `matchSpanFrom`:
* the greedy `[^.;]*` region runs from the group start to the next `.`/`;`
  (call it the segment); any keyword occurrence inside the segment makes the
  group match, and the group text is always the whole segment, because the
  lazy `.*?` stops at the first `.`/`;` (or at end of string via `$`);
* `.` cannot cross a newline, so an occurrence only counts if no newline
  lies between the end of that keyword occurrence and the segment end;
* the full match then extends one character further when a `.`/`;`
  terminator was consumed. -/

/-- First index `≥ s` holding `.` or `;`. -/
def firstSC (l : Chars) (s : Nat) : Option Nat :=
  match (l.drop s).findIdx? (fun c => c = '.' || c = ';') with
  | some i => some (s + i)
  | none => none

/-- Some keyword occurs in `seg` with no newline after it (within `seg`). -/
def kwSearchOk (kws : List String) (seg : Chars) : Bool :=
  (List.range (seg.length + 1)).any fun o =>
    kws.any fun kw =>
      prefixCI kw.data (seg.drop o) && !((seg.drop (o + kw.data.length)).any (· = '\n'))

/-- Match one variant of the span pattern whose `(?:^|\.|;)` prefix consumed
`consumed` characters at position `p`. -/
def matchSpanFrom (kws : List String) (l : Chars) (p consumed : Nat) : Option (Nat × String) :=
  let s := p + consumed
  let sp := ((l.drop s).takeWhile jsSpace).length
  let g0 := s + sp
  let segEnd := (firstSC l g0).getD l.length
  let seg := subList l g0 segEnd
  if kwSearchOk kws seg then
    match firstSC l g0 with
    | some e => some (e + 1 - p, ⟨seg⟩)
    | none => some (l.length - p, ⟨seg⟩)
  else none

def matchSpanPunct (kws : List String) (l : Chars) (p : Nat) : Option (Nat × String) :=
  match l.get? p with
  | some '.' => matchSpanFrom kws l p 1
  | some ';' => matchSpanFrom kws l p 1
  | _ => none

/-- The alternation `(?:^|\.|;)` tries `^` first (position 0 only), then a
consumed `.` or `;`. -/
def matchSpanAt (kws : List String) (l : Chars) (p : Nat) : Option (Nat × String) :=
  if p = 0 then
    match matchSpanFrom kws l p 0 with
    | some r => some r
    | none => matchSpanPunct kws l p
  else matchSpanPunct kws l p

def actionKw1 : List String :=
  ["will", "should", "must", "need to", "have to", "going to", "action", "todo", "task"]
def actionKw2 : List String := ["follow up", "follow-up", "next step", "action item"]
def actionKw3 : List String := ["assign", "responsible", "owner", "due"]

def decisionKw1 : List String := ["decided", "agreed", "concluded", "determined", "resolved"]
def decisionKw2 : List String := ["decision", "choice", "option", "approach", "solution"]
def decisionKw3 : List String := ["we will", "team will", "going with", "chosen", "selected"]

def actionIndicators : List (List String) :=
  [["will", "must", "should", "need to", "have to"],
   ["by", "due", "deadline", "before"],
   ["assign", "responsible", "owner"],
   ["action", "task", "todo", "follow up"]]

/-- `calculateActionConfidence`: base 0.3, step **0.15** per indicator group,
clamped at 1.0. -/
def calculateActionConfidence (action : String) : ℚ :=
  min (addIndicators actionIndicators (3/20) (3/10) action) 1

def decisionIndicators : List (List String) :=
  [["decided", "agreed", "concluded", "determined"],
   ["final", "final decision", "consensus"],
   ["approved", "accepted", "chosen", "selected"],
   ["going with", "moving forward"]]

/-- `calculateDecisionConfidence`: base 0.4, step 0.1, clamped at 1.0. -/
def calculateDecisionConfidence (decision : String) : ℚ :=
  min (addIndicators decisionIndicators (1/10) (2/5) decision) 1

def extractActionContext (t : Chars) (position : Nat) : String :=
  ⟨jsTrim (subList t (position - 100) (min t.length (position + 100)))⟩

def extractDecisionContext (t : Chars) (position : Nat) : String :=
  ⟨jsTrim (subList t (position - 100) (min t.length (position + 100)))⟩

/-- `[A-Z][a-z]+` under the `i` flag: a maximal run of letters of length at
least 2 (the run is maximal because every use is followed by `\s`, `:` or
nothing). -/
def nameTokenCI (l : Chars) : Option (Nat × Chars) :=
  let u := l.takeWhile Char.isAlpha
  if 2 ≤ u.length then some (u.length, u) else none

/-- `/\b([A-Z][a-z]+)\s+(?:will|should|must|needs? to)/i`. -/
def matchRespAt1 (l : Chars) (p : Nat) : Option String :=
  if !boundaryBefore l p then none else
  match nameTokenCI (l.drop p) with
  | none => none
  | some (nlen, name) =>
    let rest := l.drop (p + nlen)
    let sp := (rest.takeWhile jsSpace).length
    if sp = 0 then none else
    if ["will", "should", "must", "needs to", "need to"].any
        (fun a => prefixCI a.data (rest.drop sp))
    then some ⟨name⟩ else none

/-- `/(?:assign|assigned to|responsible|owner)\s+([A-Z][a-z]+)/i` (no
leading `\b`; alternatives tried in order, each with its continuation). -/
def matchRespAt2 (l : Chars) (p : Nat) : Option String :=
  let rest := l.drop p
  (["assign", "assigned to", "responsible", "owner"].filterMap fun a =>
    if prefixCI a.data rest then
      let rest1 := rest.drop a.data.length
      let sp := (rest1.takeWhile jsSpace).length
      if sp = 0 then none else
      match nameTokenCI (rest1.drop sp) with
      | some (_, name) => some (⟨name⟩ : String)
      | none => none
    else none).head?

/-- `/\b([A-Z][a-z]+)\s+(?:is|was)\s+(?:responsible|assigned)/i`. -/
def matchRespAt3 (l : Chars) (p : Nat) : Option String :=
  if !boundaryBefore l p then none else
  match nameTokenCI (l.drop p) with
  | none => none
  | some (nlen, name) =>
    let rest := l.drop (p + nlen)
    let sp := (rest.takeWhile jsSpace).length
    if sp = 0 then none else
    (["is", "was"].filterMap fun v =>
      if prefixCI v.data (rest.drop sp) then
        let rest2 := rest.drop (sp + v.data.length)
        let sp2 := (rest2.takeWhile jsSpace).length
        if sp2 = 0 then none else
        if ["responsible", "assigned"].any (fun w => prefixCI w.data (rest2.drop sp2))
        then some (⟨name⟩ : String) else none
      else none).head?

/-- Leftmost match of a non-global pattern (`exec` without `g`). -/
def firstMatchPos {α : Type} (matchAt : Chars → Nat → Option α) (l : Chars) : Option α :=
  ((List.range (l.length + 1)).filterMap fun p => matchAt l p).head?

/-- `extractResponsiblePerson`: first pattern (in order) with a match wins. -/
def extractResponsiblePerson (actionText : String) : Option String :=
  match firstMatchPos matchRespAt1 actionText.data with
  | some n => some n
  | none =>
    match firstMatchPos matchRespAt2 actionText.data with
    | some n => some n
    | none => firstMatchPos matchRespAt3 actionText.data

structure ActionItem where
  action : String
  responsible : Option String
  confidence : ℚ
  context : String
deriving DecidableEq, Repr

structure Decision where
  decision : String
  confidence : ℚ
  context : String
deriving DecidableEq, Repr

def actionCandidates (t : Chars) : List ActionItem :=
  (scanWith (matchSpanAt actionKw1) t ++ scanWith (matchSpanAt actionKw2) t
      ++ scanWith (matchSpanAt actionKw3) t).filterMap fun m =>
    let action : Chars := jsTrim m.val.data
    if 10 < action.length ∧ action.length < 300 then
      some { action := ⟨action⟩
             responsible := extractResponsiblePerson ⟨action⟩
             confidence := calculateActionConfidence ⟨action⟩
             context := extractActionContext t m.pos }
    else none

def decisionCandidates (t : Chars) : List Decision :=
  (scanWith (matchSpanAt decisionKw1) t ++ scanWith (matchSpanAt decisionKw2) t
      ++ scanWith (matchSpanAt decisionKw3) t).filterMap fun m =>
    let dec : Chars := jsTrim m.val.data
    if 10 < dec.length ∧ dec.length < 300 then
      some { decision := ⟨dec⟩
             confidence := calculateDecisionConfidence ⟨dec⟩
             context := extractDecisionContext t m.pos }
    else none

/-- Modelled from the spec: the third-party Fuse.js fuzzy matcher is not part
of this repository; per the specification §4.3 and §9 it is a pluggable
string-similarity search with threshold 0.3 (near-paraphrases collapse).  We
model it as token-set overlap: the stored items whose lowercased token sets
overlap the query's on at least 70 percent of the larger set. -/
def tokenSet (s : String) : List Chars :=
  ((splitSpace (s.data.map Char.toLower)).filter (· ≠ [])).eraseDups

def fuzzySimilar (a b : String) : Bool :=
  let ta := tokenSet a
  let tb := tokenSet b
  let overlap := (ta.filter fun x => tb.any (· = x)).length
  decide ((max ta.length tb.length : ℚ) * (7/10) ≤ (overlap : ℚ))

/-- Modelled from the spec: `new Fuse(idx, {keys: ['action'], threshold: 0.3})
.search(q)`, returning matching stored items. -/
def fuseSearchActions (idx : List ActionItem) (q : String) : List ActionItem :=
  idx.filter fun it => fuzzySimilar q it.action

/-- Modelled from the spec: the decision-keyed Fuse search. -/
def fuseSearchDecisions (idx : List Decision) (q : String) : List Decision :=
  idx.filter fun it => fuzzySimilar q it.decision

/-- `if (result.item.confidence > bestItem.confidence) bestItem = result.item`. -/
def bestActionOf (item : ActionItem) (similar : List ActionItem) : ActionItem :=
  similar.foldl (fun best r => if best.confidence < r.confidence then r else best) item

def bestDecisionOf (item : Decision) (similar : List Decision) : Decision :=
  similar.foldl (fun best r => if best.confidence < r.confidence then r else best) item

def dedupActionsLoop (idx : List ActionItem) :
    List ActionItem → List String → List ActionItem
  | [], _ => []
  | item :: rest, processed =>
    if item.action ∈ processed then dedupActionsLoop idx rest processed
    else
      let similar := fuseSearchActions idx item.action
      bestActionOf item similar ::
        dedupActionsLoop idx rest (processed ++ similar.map (·.action))

def dedupDecisionsLoop (idx : List Decision) :
    List Decision → List String → List Decision
  | [], _ => []
  | item :: rest, processed =>
    if item.decision ∈ processed then dedupDecisionsLoop idx rest processed
    else
      let similar := fuseSearchDecisions idx item.decision
      bestDecisionOf item similar ::
        dedupDecisionsLoop idx rest (processed ++ similar.map (·.decision))

def confDescActionRel (a b : ActionItem) : Prop := b.confidence ≤ a.confidence

instance : DecidableRel confDescActionRel :=
  fun a b => inferInstanceAs (Decidable (b.confidence ≤ a.confidence))

instance : IsTotal ActionItem confDescActionRel := ⟨fun a b => le_total b.confidence a.confidence⟩

instance : IsTrans ActionItem confDescActionRel := ⟨fun _ _ _ h1 h2 => le_trans h2 h1⟩

def confDescDecisionRel (a b : Decision) : Prop := b.confidence ≤ a.confidence

instance : DecidableRel confDescDecisionRel :=
  fun a b => inferInstanceAs (Decidable (b.confidence ≤ a.confidence))

instance : IsTotal Decision confDescDecisionRel := ⟨fun a b => le_total b.confidence a.confidence⟩

instance : IsTrans Decision confDescDecisionRel := ⟨fun _ _ _ h1 h2 => le_trans h2 h1⟩

def removeDuplicateActions (actionItems : List ActionItem) : List ActionItem :=
  if actionItems.length ≤ 1 then actionItems
  else List.insertionSort confDescActionRel (dedupActionsLoop actionItems actionItems [])

def removeDuplicateDecisions (decisions : List Decision) : List Decision :=
  if decisions.length ≤ 1 then decisions
  else List.insertionSort confDescDecisionRel (dedupDecisionsLoop decisions decisions [])

def extractActionItems (transcript : String) : List ActionItem :=
  ((removeDuplicateActions (actionCandidates transcript.data)).filter
    fun a => (3/10 : ℚ) < a.confidence).take 10

def extractKeyDecisions (transcript : String) : List Decision :=
  ((removeDuplicateDecisions (decisionCandidates transcript.data)).filter
    fun d => (2/5 : ℚ) < d.confidence).take 8

/-! ## Participant identification (meeting-processor.js, identifyParticipants) -/

def participantVerbs : List String :=
  ["said", "mentioned", "asked", "suggested", "noted", "stated"]

/-- `/\b([A-Z][a-z]+)\s+(?:said|mentioned|asked|suggested|noted|stated)/gi`
(case-insensitive: lowercased tokens also match). -/
def matchNameVerbAt (l : Chars) (p : Nat) : Option (Nat × String) :=
  if !boundaryBefore l p then none else
  match nameTokenCI (l.drop p) with
  | none => none
  | some (nlen, name) =>
    let rest := l.drop (p + nlen)
    let sp := (rest.takeWhile jsSpace).length
    if sp = 0 then none else
    match (participantVerbs.filterMap fun v =>
        if prefixCI v.data (rest.drop sp) then some v.data.length else none).head? with
    | some vlen => some (nlen + sp + vlen, ⟨name⟩)
    | none => none

/-- `/\b([A-Z][a-z]+):\s/g` — the case-SENSITIVE speaker-label format; note
the required whitespace character after the colon. -/
def matchSpeakerAt (l : Chars) (p : Nat) : Option (Nat × String) :=
  if !boundaryBefore l p then none else
  match l.drop p with
  | c :: rest0 =>
    if c.isUpper then
      let lo := rest0.takeWhile Char.isLower
      if lo.length = 0 then none else
      match rest0.drop lo.length with
      | ':' :: d :: _ =>
        if jsSpace d then some (1 + lo.length + 2, ⟨c :: lo⟩) else none
      | _ => none
    else none
  | [] => none

/-- `/(?:thanks|thank you)\s+([A-Z][a-z]+)/gi` (no leading `\b`). -/
def matchThanksAt (l : Chars) (p : Nat) : Option (Nat × String) :=
  let rest := l.drop p
  (["thanks", "thank you"].filterMap fun kw =>
    if prefixCI kw.data rest then
      let rest1 := rest.drop kw.data.length
      let sp := (rest1.takeWhile jsSpace).length
      if sp = 0 then none else
      match nameTokenCI (rest1.drop sp) with
      | some (nlen, name) => some (kw.data.length + sp + nlen, (⟨name⟩ : String))
      | none => none
    else none).head?

/-- JS `Set.add`: insertion order, no duplicates. -/
def setAdd (l : List String) (s : String) : List String :=
  if s ∈ l then l else l ++ [s]

def participantsFrom (t : Chars) : List String :=
  (scanWith matchNameVerbAt t ++ scanWith matchSpeakerAt t
      ++ scanWith matchThanksAt t).foldl
    (fun acc m =>
      if 2 < m.val.data.length ∧ m.val.data.length < 20 then setAdd acc m.val else acc)
    []

def identifyParticipants (transcript : String) : List String :=
  (participantsFrom transcript.data).take 10

/-! ## Pipeline orchestration (meeting-processor.js, processMeeting) -/

/-- The value of `this.config[tier] || this.config.basic`, viewed through
the three properties the pipeline reads from it.  A field is `none` when a
JS property access on the looked-up value yields `undefined` — which happens
when `tier` named an inherited `Object.prototype` member (a function or
object carrying none of the tier fields). -/
structure TierConfig where
  useAI : Option Bool
  maxTranscriptLength : Option Nat
  summaryLength : Option Nat
deriving DecidableEq, Repr

def basicConfig : TierConfig :=
  { useAI := some false, maxTranscriptLength := some 50000, summaryLength := some 500 }
def aiConfig : TierConfig :=
  { useAI := some true, maxTranscriptLength := some 100000, summaryLength := some 1000 }

/-- Property names a plain object literal inherits from `Object.prototype`
(Node/V8, Annex B accessors included).  `this.config[tier]` for these names
is a truthy inherited function/object, so `|| this.config.basic` does NOT
fall back for them. -/
def objectProtoProps : List String :=
  ["constructor", "hasOwnProperty", "isPrototypeOf", "propertyIsEnumerable",
   "toLocaleString", "toString", "valueOf", "__defineGetter__",
   "__defineSetter__", "__lookupGetter__", "__lookupSetter__", "__proto__"]

/-- An inherited `Object.prototype` member used as a tier config: truthy,
but its `useAI`, `maxTranscriptLength` and `summaryLength` properties are
all `undefined`. -/
def protoConfig : TierConfig :=
  { useAI := none, maxTranscriptLength := none, summaryLength := none }

/-- `this.config[tier] || this.config.basic`: the own keys `basic`/`ai`
yield their tier objects; an `Object.prototype` property name yields the
truthy inherited member (no fallback, all tier fields undefined); any other
string yields `undefined` and falls back to the basic config. -/
def config (tier : String) : TierConfig :=
  if tier = "basic" then basicConfig
  else if tier = "ai" then aiConfig
  else if tier ∈ objectProtoProps then protoConfig
  else basicConfig

/-- `transcript.replace(/\s+/g, ' ').trim()`. -/
def normalizeTranscript (s : String) : String := ⟨jsTrim (collapseWs s.data)⟩

/-- `cleanTranscript`: `none` models a missing / non-string argument; the
empty string is falsy in JS, so `!transcript` also rejects it.  A too-long
cleaned transcript is cut at `maxLength` and gets the `'...'` marker. -/
def cleanTranscript (transcript : Option String) (maxLength : Option Nat) :
    Except String String :=
  match transcript with
  | none => .error "Invalid transcript provided"
  | some s =>
    if s = "" then .error "Invalid transcript provided"
    else
      let cleaned := (normalizeTranscript s).data
      -- `cleaned.length > maxLength`: false when maxLength is undefined
      -- (a JS comparison with undefined is false), so no truncation then
      match maxLength with
      | some m =>
        if m < cleaned.length then .ok ⟨cleaned.take m ++ "...".data⟩
        else .ok ⟨cleaned⟩
      | none => .ok ⟨cleaned⟩

/-- The analysis record returned by `processMeeting` (the wall-clock
`processedAt` field is omitted; it is not a function of the input). -/
structure TranscriptAnalysis where
  transcript : String
  ticketMentions : List TicketMention
  summary : String
  actionItems : List ActionItem
  keyDecisions : List Decision
  participants : List String
  processingTier : String
  wordCount : Nat
deriving DecidableEq, Repr

def processMeeting (transcript : Option String) (tier : String) :
    Except String TranscriptAnalysis :=
  let cfg := config tier
  match cleanTranscript transcript cfg.maxTranscriptLength with
  | .error e => .error ("Meeting processing failed: " ++ e)
  | .ok clean =>
    .ok
      { transcript := clean
        ticketMentions := extractTicketMentions clean
        summary :=
          if tier = "ai" then generateAISummary clean cfg.summaryLength
          else generateBasicSummary clean cfg.summaryLength
        actionItems := extractActionItems clean
        keyDecisions := extractKeyDecisions clean
        participants := identifyParticipants clean
        processingTier := tier
        wordCount := (splitSpace clean.data).length }

end MeetingSync

/-! ## TextProcessor.js -/

namespace TextProcessor

open MeetingSync

def actionWords : List String :=
  ["will", "should", "need to", "must", "todo", "action", "assign", "follow up"]

def decisionWords : List String :=
  ["decided", "agreed", "conclusion", "final", "resolved", "determined"]

/-- `/\b([A-Z][A-Z0-9]*-\d+)\b/g` at one position (for the stateful
`this.ticketPattern`). Returns the end position of the match. -/
def matchTicketTPAt (l : Chars) (p : Nat) : Option Nat :=
  if !boundaryBefore l p then none else
  match l.drop p with
  | c :: rest0 =>
    if c.isUpper then
      let u := rest0.takeWhile fun d => d.isUpper || d.isDigit
      match rest0.drop u.length with
      | '-' :: r2 =>
        let d := r2.takeWhile Char.isDigit
        if d.isEmpty then none else
        match r2.drop d.length with
        | [] => some (p + 1 + u.length + 1 + d.length)
        | e :: _ =>
          if isWordChar e then none else some (p + 1 + u.length + 1 + d.length)
      | _ => none
    else none
  | [] => none

/-- `regex.test(s)` for the `g`-flagged `ticketPattern`: searches from the
regex object's `lastIndex`, returns the flag together with the updated
`lastIndex` (end of match on success, 0 on failure). -/
def ticketTestFrom (l : Chars) (start : Nat) : Bool × Nat :=
  match ((List.range (l.length + 1)).filterMap fun p =>
      if start ≤ p then (matchTicketTPAt l p).map id else none).head? with
  | some e => (true, e)
  | none => (false, 0)

/-- Modelled from the spec: the external nlp-compromise sentence splitter
(`nlp(transcript).sentences().data()`) is not part of this repository.  Per
specification §4.1 the tokenizer splits on runs of terminal punctuation and
yields non-empty trimmed sentences. -/
def nlpSentences (t : Chars) : List Chars :=
  ((splitPunct t).map jsTrim).filter (· ≠ [])

structure TPScored where
  sentence : String
  score : Int
deriving DecidableEq, Repr

/-- The scoring loop of `generateSummary`, threading the shared
`ticketPattern.lastIndex` through the per-sentence `test` calls (a `g`-flagged
regex object stored on the instance keeps its `lastIndex` across calls). -/
def scoreTPGo (n : Nat) : List (Nat × Chars) → Nat → List TPScored
  | [], _ => []
  | (i, s) :: rest, lastIdx =>
    -- the positional float comparisons are exact and written
    -- denominator-cleared over the integers, as in `scoreSentence`
    let s1 : Int := if 10 * i < 3 * n then 0 + 2 else 0
    let s2 := if 7 * n < 10 * i then s1 + 1 else s1
    let lower := s.map Char.toLower
    let s3 := if actionWords.any (fun w => containsSub lower w.data) then s2 + 3 else s2
    let s4 := if decisionWords.any (fun w => containsSub lower w.data) then s3 + 3 else s3
    let tk := ticketTestFrom s lastIdx
    let s5 := if tk.1 then s4 + 2 else s4
    let wc := (splitSpace s).length
    let s6 := if 10 ≤ wc ∧ wc ≤ 30 then s5 + 1 else s5
    { sentence := ⟨s⟩, score := s6 } :: scoreTPGo n rest tk.2

def tpScoreDescRel (a b : TPScored) : Prop := b.score ≤ a.score

instance : DecidableRel tpScoreDescRel :=
  fun a b => inferInstanceAs (Decidable (b.score ≤ a.score))

instance : IsTotal TPScored tpScoreDescRel := ⟨fun a b => le_total b.score a.score⟩

instance : IsTrans TPScored tpScoreDescRel := ⟨fun _ _ _ h1 h2 => le_trans h2 h1⟩

/-- `TextProcessor.generateSummary` on a fresh instance (`lastIndex = 0`):
score, stable-sort by score descending, take 3, and join in THAT order —
unlike the meeting-processor variant there is no re-sort by index. -/
def generateSummary (transcript : String) : String :=
  let sentences := nlpSentences transcript.data
  let scored := scoreTPGo sentences.length sentences.enum 0
  String.intercalate " "
    (((List.insertionSort tpScoreDescRel scored).take 3).map (·.sentence))

def positiveWords : List String :=
  ["good", "great", "excellent", "positive", "success", "complete", "done", "resolved"]

def negativeWords : List String :=
  ["bad", "problem", "issue", "fail", "block", "stuck", "difficult", "concern"]

/-- `analyzeSentiment`: net occurrence count of the word lists in the
lowercased text, normalized by `max(wordCount * 0.1, 1)`, clamped to
`[-1, 1]`. -/
def analyzeSentiment (text : String) : ℚ :=
  let lowerText := text.data.map Char.toLower
  let s1 := positiveWords.foldl (fun sc w => sc + (countOccur w.data lowerText : ℚ)) 0
  let s2 := negativeWords.foldl (fun sc w => sc - (countOccur w.data lowerText : ℚ)) s1
  let wordCount := (splitSpace text.data).length
  max (-1) (min 1 (s2 / max ((wordCount : ℚ) * (1/10)) 1))

/-- The claim's reference formula for the raw (unclamped, unnormalized) net
sentiment score. -/
def sentimentRaw (text : String) : ℚ :=
  ((positiveWords.map fun w => (countOccur w.data (text.data.map Char.toLower) : ℚ)).sum)
    - ((negativeWords.map fun w => (countOccur w.data (text.data.map Char.toLower) : ℚ)).sum)

end TextProcessor

/-! ## Concrete example inputs used by witnesses and counterexamples -/

/-- A transcript with four qualifying sentences (scoring branch of the basic
summary generator). -/
def chronologyExample : String :=
  "Alpha beta gamma delta one. Bravo charlie delta echo two. Charlie delta echo fox three. Delta echo fox gulf four."

/-- A transcript whose highest-scoring sentence is the last one; used to
exhibit the missing chronological re-sort in TextProcessor.generateSummary. -/
def chronologyCexText : String :=
  "Alpha beta gamma delta. Epsilon words here again. Nothing special occurs now. We decided we will act"

/-- A 600-character transcript with no terminal punctuation: a single
"sentence" far longer than the basic tier summary budget. -/
def longSingleSentence : String := String.join (List.replicate 120 "word ")

/-- A 60000-character transcript (no whitespace), exceeding the basic
tier's 50000-character transcript budget. -/
def hugeTranscript : String := ⟨List.replicate 60000 'a'⟩

/-! ## Lemmas about the embedded code -/

namespace MeetingSync

theorem addIndicators_eq (inds : List (List String)) (step base : ℚ) (text : String) :
    addIndicators inds step base text
      = base + step * ((inds.filter fun ind => testWordAlts ind text).length : ℚ) := by
  induction inds generalizing base with
  | nil => simp [addIndicators]
  | cons i is ih =>
    simp only [addIndicators, List.foldl_cons, List.filter_cons] at *
    cases h : testWordAlts i text with
    | false => simpa [h] using ih base
    | true =>
      simp only [h, if_true, ih (base + step), List.length_cons]
      push_cast
      ring

theorem addIndicators_lower (inds : List (List String)) (step base : ℚ) (text : String)
    (hstep : 0 ≤ step) : base ≤ addIndicators inds step base text := by
  rw [addIndicators_eq]
  have : (0 : ℚ) ≤ step * ((inds.filter fun ind => testWordAlts ind text).length : ℚ) :=
    mul_nonneg hstep (by positivity)
  linarith

theorem calculateMentionConfidence_bounds (ctx tid : String) :
    0 ≤ calculateMentionConfidence ctx tid ∧ calculateMentionConfidence ctx tid ≤ 1 := by
  unfold calculateMentionConfidence
  refine ⟨le_min ?_ (by norm_num), min_le_right _ _⟩
  have := addIndicators_lower mentionIndicators (1/10) (1/2) ctx (by norm_num)
  linarith

theorem calculateActionConfidence_bounds (a : String) :
    0 ≤ calculateActionConfidence a ∧ calculateActionConfidence a ≤ 1 := by
  unfold calculateActionConfidence
  refine ⟨le_min ?_ (by norm_num), min_le_right _ _⟩
  have := addIndicators_lower actionIndicators (3/20) (3/10) a (by norm_num)
  linarith

theorem calculateDecisionConfidence_bounds (d : String) :
    0 ≤ calculateDecisionConfidence d ∧ calculateDecisionConfidence d ≤ 1 := by
  unfold calculateDecisionConfidence
  refine ⟨le_min ?_ (by norm_num), min_le_right _ _⟩
  have := addIndicators_lower decisionIndicators (1/10) (2/5) d (by norm_num)
  linarith

/-! ### Membership plumbing for the extractor outputs -/

theorem selectFrom_subset {α : Type} :
    ∀ (ms : List (RxMatch α)) (cursor : Nat) (x : RxMatch α),
      x ∈ selectFrom cursor ms → x ∈ ms := by
  intro ms
  induction ms with
  | nil => intro cursor x hx; simp [selectFrom] at hx
  | cons m rest ih =>
    intro cursor x hx
    unfold selectFrom at hx
    by_cases h : cursor ≤ m.pos
    · rw [if_pos h] at hx
      rcases List.mem_cons.mp hx with rfl | hx'
      · exact List.mem_cons_self _ _
      · exact List.mem_cons_of_mem _ (ih _ _ hx')
    · rw [if_neg h] at hx
      exact List.mem_cons_of_mem _ (ih _ _ hx)

theorem foldl_pick_mem {α : Type} (conf : α → ℚ) :
    ∀ (sim : List α) (item : α),
      sim.foldl (fun best r => if conf best < conf r then r else best) item ∈ item :: sim := by
  intro sim
  induction sim with
  | nil => intro item; simp
  | cons r rs ih =>
    intro item
    simp only [List.foldl_cons]
    by_cases hc : conf item < conf r
    · rw [if_pos hc]
      rcases List.mem_cons.mp (ih r) with h | h
      · simp [h]
      · simp [List.mem_cons_of_mem, h]
    · rw [if_neg hc]
      rcases List.mem_cons.mp (ih item) with h | h
      · simp [h]
      · simp [List.mem_cons_of_mem, h]

theorem bestActionOf_mem (item : ActionItem) (sim : List ActionItem) :
    bestActionOf item sim ∈ item :: sim := by
  unfold bestActionOf
  exact foldl_pick_mem (fun a => a.confidence) sim item

theorem bestDecisionOf_mem (item : Decision) (sim : List Decision) :
    bestDecisionOf item sim ∈ item :: sim := by
  unfold bestDecisionOf
  exact foldl_pick_mem (fun a => a.confidence) sim item

theorem dedupActionsLoop_subset (idx : List ActionItem) :
    ∀ (items : List ActionItem) (processed : List String) (x : ActionItem),
      x ∈ dedupActionsLoop idx items processed → x ∈ idx ∨ x ∈ items := by
  intro items
  induction items with
  | nil => intro processed x hx; simp [dedupActionsLoop] at hx
  | cons item rest ih =>
    intro processed x hx
    unfold dedupActionsLoop at hx
    by_cases hmem : item.action ∈ processed
    · rw [if_pos hmem] at hx
      rcases ih _ x hx with h | h
      · exact Or.inl h
      · exact Or.inr (List.mem_cons_of_mem _ h)
    · rw [if_neg hmem] at hx
      rcases List.mem_cons.mp hx with rfl | hx'
      · rcases List.mem_cons.mp
          (bestActionOf_mem item (fuseSearchActions idx item.action)) with h | h
        · rw [h]
          exact Or.inr (List.mem_cons_self _ _)
        · exact Or.inl (List.mem_of_mem_filter h)
      · rcases ih _ x hx' with h | h
        · exact Or.inl h
        · exact Or.inr (List.mem_cons_of_mem _ h)

theorem dedupDecisionsLoop_subset (idx : List Decision) :
    ∀ (items : List Decision) (processed : List String) (x : Decision),
      x ∈ dedupDecisionsLoop idx items processed → x ∈ idx ∨ x ∈ items := by
  intro items
  induction items with
  | nil => intro processed x hx; simp [dedupDecisionsLoop] at hx
  | cons item rest ih =>
    intro processed x hx
    unfold dedupDecisionsLoop at hx
    by_cases hmem : item.decision ∈ processed
    · rw [if_pos hmem] at hx
      rcases ih _ x hx with h | h
      · exact Or.inl h
      · exact Or.inr (List.mem_cons_of_mem _ h)
    · rw [if_neg hmem] at hx
      rcases List.mem_cons.mp hx with rfl | hx'
      · rcases List.mem_cons.mp
          (bestDecisionOf_mem item (fuseSearchDecisions idx item.decision)) with h | h
        · rw [h]
          exact Or.inr (List.mem_cons_self _ _)
        · exact Or.inl (List.mem_of_mem_filter h)
      · rcases ih _ x hx' with h | h
        · exact Or.inl h
        · exact Or.inr (List.mem_cons_of_mem _ h)

theorem removeDuplicateActions_subset (l : List ActionItem) (x : ActionItem)
    (hx : x ∈ removeDuplicateActions l) : x ∈ l := by
  unfold removeDuplicateActions at hx
  split at hx
  · exact hx
  · have hx' := (List.perm_insertionSort confDescActionRel _).mem_iff.mp hx
    rcases dedupActionsLoop_subset l l [] x hx' with h | h <;> exact h

theorem removeDuplicateDecisions_subset (l : List Decision) (x : Decision)
    (hx : x ∈ removeDuplicateDecisions l) : x ∈ l := by
  unfold removeDuplicateDecisions at hx
  split at hx
  · exact hx
  · have hx' := (List.perm_insertionSort confDescDecisionRel _).mem_iff.mp hx
    rcases dedupDecisionsLoop_subset l l [] x hx' with h | h <;> exact h

theorem actionCandidates_conf (t : Chars) (x : ActionItem) (hx : x ∈ actionCandidates t) :
    ∃ a : String, x.confidence = calculateActionConfidence a := by
  unfold actionCandidates at hx
  rcases List.mem_filterMap.mp hx with ⟨m, _, hm⟩
  dsimp only at hm
  split at hm
  · have hx' := Option.some.inj hm
    exact ⟨_, by rw [← hx']⟩
  · exact absurd hm (by simp)

theorem decisionCandidates_conf (t : Chars) (x : Decision) (hx : x ∈ decisionCandidates t) :
    ∃ d : String, x.confidence = calculateDecisionConfidence d := by
  unfold decisionCandidates at hx
  rcases List.mem_filterMap.mp hx with ⟨m, _, hm⟩
  dsimp only at hm
  split at hm
  · have hx' := Option.some.inj hm
    exact ⟨_, by rw [← hx']⟩
  · exact absurd hm (by simp)

theorem ticketLoop_mem (t : Chars) :
    ∀ (ms : List (RxMatch String)) (seen : List String) (x : TicketMention),
      x ∈ ticketLoop t ms seen → ∃ m ∈ ms, x = mkMention t m.pos m.val := by
  intro ms
  induction ms with
  | nil => intro seen x hx; simp [ticketLoop] at hx
  | cons m rest ih =>
    intro seen x hx
    unfold ticketLoop at hx
    by_cases h : m.val ∈ seen
    · rw [if_pos h] at hx
      rcases ih _ x hx with ⟨m', hm', he⟩
      exact ⟨m', List.mem_cons_of_mem _ hm', he⟩
    · rw [if_neg h] at hx
      rcases List.mem_cons.mp hx with rfl | hx'
      · exact ⟨m, List.mem_cons_self _ _, rfl⟩
      · rcases ih _ x hx' with ⟨m', hm', he⟩
        exact ⟨m', List.mem_cons_of_mem _ hm', he⟩

/-! ### The dedup loop projected onto ticket ids -/

theorem ticketLoop_map_ticketId (t : Chars) :
    ∀ (ms : List (RxMatch String)) (seen : List String),
      (ticketLoop t ms seen).map (·.ticketId) = firstWins (ms.map (·.val)) seen := by
  intro ms
  induction ms with
  | nil => intro seen; simp [ticketLoop, firstWins]
  | cons m rest ih =>
    intro seen
    unfold ticketLoop
    simp only [List.map_cons]
    unfold firstWins
    by_cases h : m.val ∈ seen
    · rw [if_pos h, if_pos h, ih]
    · rw [if_neg h, if_neg h, List.map_cons, ih]
      rfl

theorem firstWins_nodup_disjoint :
    ∀ (ss : List String) (seen : List String),
      (firstWins ss seen).Nodup ∧ ∀ x ∈ firstWins ss seen, x ∉ seen := by
  intro ss
  induction ss with
  | nil => intro seen; simp [firstWins]
  | cons s rest ih =>
    intro seen
    unfold firstWins
    by_cases h : s ∈ seen
    · simpa [h] using ih seen
    · rw [if_neg h]
      obtain ⟨hnd, hdisj⟩ := ih (s :: seen)
      refine ⟨List.nodup_cons.mpr ⟨fun hc => hdisj s hc (List.mem_cons_self _ _), hnd⟩, ?_⟩
      intro x hx
      rcases List.mem_cons.mp hx with rfl | hx'
      · exact h
      · exact fun hxs => hdisj x hx' (List.mem_cons_of_mem _ hxs)

/-! ### Shape of extracted ticket ids -/

theorem takeWhile_append_stop {p : Char → Bool} :
    ∀ (u : Chars) (c : Char) (d : Chars),
      (∀ x ∈ u, p x = true) → p c = false → (u ++ c :: d).takeWhile p = u := by
  intro u
  induction u with
  | nil => intro c d _ hc; simp [List.takeWhile, hc]
  | cons a as ih =>
    intro c d hu hc
    have ha : p a = true := hu a (List.mem_cons_self _ _)
    rw [List.cons_append, List.takeWhile_cons, if_pos ha,
      ih c d (fun x hx => hu x (List.mem_cons_of_mem _ hx)) hc]

theorem ticketIdShapeB_of_parts (u d : Chars) (hu : ∀ x ∈ u, x.isAlpha = true)
    (h2 : 2 ≤ u.length) (h10 : u.length ≤ 10) (hd : ¬ d.isEmpty)
    (hdd : ∀ x ∈ d, x.isDigit = true) :
    ticketIdShapeB ⟨u ++ '-' :: d⟩ = true := by
  unfold ticketIdShapeB
  have htw : (u ++ '-' :: d).takeWhile Char.isAlpha = u :=
    takeWhile_append_stop u '-' d hu (by decide)
  simp only [htw]
  rw [List.drop_left]
  simp only [Bool.and_eq_true, decide_eq_true_eq]
  refine ⟨⟨h2, h10⟩, ?_, ?_⟩
  · simpa using hd
  · exact List.all_eq_true.mpr hdd

theorem isUpper_isAlpha {c : Char} (h : c.isUpper = true) : c.isAlpha = true := by
  simp [Char.isAlpha, h]

theorem matchTicketStd_shape (l : Chars) (p : Nat) (len : Nat) (s : String)
    (h : matchTicketStd l p = some (len, s)) : ticketIdShapeB s = true := by
  simp only [matchTicketStd] at h
  split at h
  · exact absurd h (by simp)
  · split at h
    · exact absurd h (by simp)
    · split at h
      · split at h
        · exact absurd h (by simp)
        · split at h
          · rename_i hb hlen u rest3 hequ hne x2 heq2
            injection h with h'
            injection h' with _ hs
            subst hs
            simp only [Bool.or_eq_true, decide_eq_true_eq, not_or, not_lt] at hlen
            refine ticketIdShapeB_of_parts _ _
              (fun x hx => isUpper_isAlpha (List.mem_takeWhile_imp hx)) (by omega) (by omega)
              hne (fun x hx => List.mem_takeWhile_imp hx)
          · split at h
            · exact absurd h (by simp)
            · rename_i hb hlen u rest3 hequ hne x2 c rest4 heq2 hcw
              injection h with h'
              injection h' with _ hs
              subst hs
              simp only [Bool.or_eq_true, decide_eq_true_eq, not_or, not_lt] at hlen
              refine ticketIdShapeB_of_parts _ _
                (fun x hx => isUpper_isAlpha (List.mem_takeWhile_imp hx)) (by omega) (by omega)
                hne (fun x hx => List.mem_takeWhile_imp hx)
      · exact absurd h (by simp)

theorem matchTicketPrefixed_shape (kw l : Chars) (p : Nat) (len : Nat) (s : String)
    (h : matchTicketPrefixed kw l p = some (len, s)) : ticketIdShapeB s = true := by
  simp only [matchTicketPrefixed] at h
  split at h
  · exact absurd h (by simp)
  · split at h
    · exact absurd h (by simp)
    · split at h
      · exact absurd h (by simp)
      · split at h
        · exact absurd h (by simp)
        · split at h
          · split at h
            · exact absurd h (by simp)
            · rename_i hb hpre hsp hlen u rest3 hequ hne
              injection h with h'
              injection h' with _ hs
              subst hs
              simp only [Bool.or_eq_true, decide_eq_true_eq, not_or, not_lt] at hlen
              refine ticketIdShapeB_of_parts _ _
                (fun x hx => List.mem_takeWhile_imp hx) (by omega) (by omega)
                hne (fun x hx => List.mem_takeWhile_imp hx)
          · exact absurd h (by simp)

theorem matchTicketSeparated_shape (l : Chars) (p : Nat) (len : Nat) (s : String)
    (h : matchTicketSeparated l p = some (len, s)) : ticketIdShapeB s = true := by
  simp only [matchTicketSeparated] at h
  split at h
  · exact absurd h (by simp)
  · split at h
    · exact absurd h (by simp)
    · split at h
      · exact absurd h (by simp)
      · split at h
        · exact absurd h (by simp)
        · split at h
          · rename_i hb hlen hsp hne x heq
            injection h with h'
            injection h' with _ hs
            subst hs
            simp only [Bool.or_eq_true, decide_eq_true_eq, not_or, not_lt] at hlen
            refine ticketIdShapeB_of_parts _ _
              (fun x hx => isUpper_isAlpha (List.mem_takeWhile_imp hx)) (by omega) (by omega)
              hne (fun x hx => List.mem_takeWhile_imp hx)
          · split at h
            · exact absurd h (by simp)
            · rename_i hb hlen hsp hne x c rest4 heq hcw
              injection h with h'
              injection h' with _ hs
              subst hs
              simp only [Bool.or_eq_true, decide_eq_true_eq, not_or, not_lt] at hlen
              refine ticketIdShapeB_of_parts _ _
                (fun x hx => isUpper_isAlpha (List.mem_takeWhile_imp hx)) (by omega) (by omega)
                hne (fun x hx => List.mem_takeWhile_imp hx)

theorem scanWith_shape {matchAt : Chars → Nat → Option (Nat × String)}
    (hshape : ∀ l p len s, matchAt l p = some (len, s) → ticketIdShapeB s = true)
    (l : Chars) (m : RxMatch String) (hm : m ∈ scanWith matchAt l) :
    ticketIdShapeB m.val = true := by
  unfold scanWith at hm
  have hm' := selectFrom_subset _ _ _ hm
  rcases List.mem_filterMap.mp hm' with ⟨p, _, hp⟩
  cases he : matchAt l p with
  | none => rw [he] at hp; exact absurd hp (by simp)
  | some r =>
    rw [he] at hp
    simp only [Option.map_some', Option.some.injEq] at hp
    have : m.val = r.2 := by rw [← hp]
    rw [this]
    exact hshape l p r.1 r.2 (by rw [he])

theorem ticketPatternMatches_shape (t : Chars) (m : RxMatch String)
    (hm : m ∈ ticketPatternMatches t) : ticketIdShapeB m.val = true := by
  unfold ticketPatternMatches at hm
  simp only [List.mem_append] at hm
  rcases hm with ((h | h) | h) | h
  · exact scanWith_shape matchTicketStd_shape t m h
  · exact scanWith_shape (matchTicketPrefixed_shape "ticket".data) t m h
  · exact scanWith_shape (matchTicketPrefixed_shape "issue".data) t m h
  · exact scanWith_shape matchTicketSeparated_shape t m h

/-! ### Participant identification invariants -/

theorem setAdd_nodup (l : List String) (s : String) (h : l.Nodup) : (setAdd l s).Nodup := by
  unfold setAdd
  by_cases hs : s ∈ l
  · rwa [if_pos hs]
  · rw [if_neg hs]
    exact List.nodup_append.mpr ⟨h, List.nodup_singleton s,
      fun x hx hx' => hs ((List.mem_singleton.mp hx') ▸ hx)⟩

theorem setAdd_mem (l : List String) (s x : String) (hx : x ∈ setAdd l s) :
    x ∈ l ∨ x = s := by
  unfold setAdd at hx
  by_cases hs : s ∈ l
  · rw [if_pos hs] at hx; exact Or.inl hx
  · rw [if_neg hs] at hx
    rcases List.mem_append.mp hx with h | h
    · exact Or.inl h
    · exact Or.inr (List.mem_singleton.mp h)

/-- The participant accumulation loop only adds names with length in (2, 20)
and keeps the accumulator duplicate-free. -/
theorem participantsFold_invariant (ms : List (RxMatch String)) :
    ∀ acc : List String, acc.Nodup →
      (∀ x ∈ acc, 2 < x.data.length ∧ x.data.length < 20) →
      (ms.foldl (fun acc m =>
          if 2 < m.val.data.length ∧ m.val.data.length < 20 then setAdd acc m.val else acc)
        acc).Nodup ∧
      ∀ x ∈ ms.foldl (fun acc m =>
          if 2 < m.val.data.length ∧ m.val.data.length < 20 then setAdd acc m.val else acc)
        acc, 2 < x.data.length ∧ x.data.length < 20 := by
  induction ms with
  | nil => intro acc h1 h2; exact ⟨h1, h2⟩
  | cons m rest ih =>
    intro acc h1 h2
    simp only [List.foldl_cons]
    by_cases hc : 2 < m.val.data.length ∧ m.val.data.length < 20
    · rw [if_pos hc]
      refine ih _ (setAdd_nodup _ _ h1) ?_
      intro x hx
      rcases setAdd_mem _ _ _ hx with h | rfl
      · exact h2 x h
      · exact hc
    · rw [if_neg hc]
      exact ih acc h1 h2

theorem identifyParticipants_props (t : String) :
    (identifyParticipants t).length ≤ 10 ∧ (identifyParticipants t).Nodup ∧
      ∀ n ∈ identifyParticipants t, 2 < n.data.length ∧ n.data.length < 20 := by
  obtain ⟨hnd, hmem⟩ := participantsFold_invariant
    (scanWith matchNameVerbAt t.data ++ scanWith matchSpeakerAt t.data
      ++ scanWith matchThanksAt t.data) [] List.nodup_nil (by simp)
  refine ⟨List.length_take_le _ _, ?_, ?_⟩
  · exact hnd.sublist (List.take_sublist _ _)
  · intro n hn
    exact hmem n (List.mem_of_mem_take hn)

/-! ### Chronological order of the selected summary sentences -/

theorem summaryScored_map_index (sentences : List Chars) :
    (summaryScored sentences).map (·.index) = List.range sentences.length := by
  unfold summaryScored
  rw [List.mapIdx_eq_enum_map, List.map_map]
  exact List.enum_map_fst _

theorem summaryTop_sorted (sentences : List Chars) :
    List.Sorted indexAscRel (summaryTop sentences) :=
  List.sorted_insertionSort indexAscRel _

theorem summaryTop_index_nodup (sentences : List Chars) :
    ((summaryTop sentences).map (·.index)).Nodup := by
  have h0 : ((summaryScored sentences).map (·.index)).Nodup := by
    rw [summaryScored_map_index]; exact List.nodup_range _
  have h1 : ((List.insertionSort scoreDescRel (summaryScored sentences)).map (·.index)).Nodup :=
    ((List.perm_insertionSort scoreDescRel _).map (·.index)).nodup_iff.mpr h0
  have hsub : ((List.insertionSort scoreDescRel (summaryScored sentences)).take
      (min 5 (ceilNat3div10 sentences.length))).Sublist
      (List.insertionSort scoreDescRel (summaryScored sentences)) :=
    List.take_sublist _ _
  have h2 : (((List.insertionSort scoreDescRel (summaryScored sentences)).take
      (min 5 (ceilNat3div10 sentences.length))).map (·.index)).Nodup :=
    h1.sublist (hsub.map fun x : ScoredSentence => x.index)
  exact ((List.perm_insertionSort indexAscRel _).map (·.index)).nodup_iff.mpr h2

theorem summaryTop_index_mono (sentences : List Chars) :
    ((summaryTop sentences).map (·.index)).Pairwise (· ≤ ·) := by
  have := summaryTop_sorted sentences
  exact (List.pairwise_map).mpr this

/-! ### Summary length accounting -/

theorem generateBasicSummary_eq_scoring (t : String) (m : Option Nat) (h50 : ¬ t.data.length < 50)
    (h3 : ¬ (qualSentences t.data).length ≤ 3) :
    generateBasicSummary t m =
      (let summary := joinSep ". ".data ((summaryTop (qualSentences t.data)).map (·.sentence.data))
       let summary2 :=
         match m with
         | some mm => if mm < summary.length then summary.take (mm - 3) ++ "...".data else summary
         | none => summary
       if summary2.isEmpty then msgUnable else ⟨summary2⟩) := by
  simp only [generateBasicSummary]
  rw [if_neg h50, if_neg h3]

theorem generateBasicSummary_length_le (t : String) (m : Nat) (h42 : 42 ≤ m)
    (h : t.data.length < 50 ∨ 3 < (qualSentences t.data).length) :
    (generateBasicSummary t (some m)).data.length ≤ m := by
  have hshort : msgTooShort.data.length = 42 := rfl
  have hunable : msgUnable.data.length = 38 := rfl
  simp only [generateBasicSummary]
  by_cases h50 : t.data.length < 50
  · rw [if_pos h50]
    omega
  · have h3 : ¬ (qualSentences t.data).length ≤ 3 := by
      rcases h with h | h
      · exact absurd h h50
      · omega
    rw [if_neg h50, if_neg h3]
    set summary := joinSep ". ".data ((summaryTop (qualSentences t.data)).map (·.sentence.data))
      with hsum
    by_cases htr : m < summary.length
    · rw [if_pos htr]
      have hne : (summary.take (m - 3) ++ "...".data).isEmpty = false := by
        simp [List.isEmpty_iff]
      rw [if_neg (by simp [hne])]
      show (summary.take (m - 3) ++ "...".data).length ≤ m
      rw [List.length_append, List.length_take]
      have h1 : m - 3 ≤ summary.length := by omega
      have h2 : ("...".data).length = 3 := rfl
      rw [min_eq_left h1, h2]
      omega
    · rw [if_neg htr]
      by_cases hemp : summary.isEmpty
      · rw [if_pos hemp]
        omega
      · rw [if_neg hemp]
        show summary.length ≤ m
        omega

/-! ### Validation, truncation and tier fallback in the pipeline -/

theorem cleanTranscript_truncates (s : String) (m : Nat)
    (h : m < (normalizeTranscript s).data.length) :
    cleanTranscript (some s) (some m)
        = .ok ⟨(normalizeTranscript s).data.take m ++ "...".data⟩ ∧
      ∀ r, cleanTranscript (some s) (some m) = .ok r → r.data.length = m + 3 := by
  have hs : s ≠ "" := by
    intro he
    subst he
    have h0 : (normalizeTranscript "").data.length = 0 := rfl
    omega
  have heq : cleanTranscript (some s) (some m)
      = .ok ⟨(normalizeTranscript s).data.take m ++ "...".data⟩ := by
    simp only [cleanTranscript]
    rw [if_neg hs, if_pos h]
  refine ⟨heq, fun r hr => ?_⟩
  rw [heq] at hr
  injection hr with hr'
  rw [← hr']
  show ((normalizeTranscript s).data.take m ++ "...".data).length = m + 3
  rw [List.length_append, List.length_take, min_eq_left (le_of_lt h)]
  rfl

theorem cleanTranscript_passthrough (s : String) (hs : s ≠ "") (m : Nat)
    (h : (normalizeTranscript s).data.length ≤ m) :
    cleanTranscript (some s) (some m) = .ok (normalizeTranscript s) := by
  simp only [cleanTranscript]
  rw [if_neg hs, if_neg (not_lt.mpr h)]

theorem cleanTranscript_undefined_max (s : String) (hs : s ≠ "") :
    cleanTranscript (some s) none = .ok (normalizeTranscript s) := by
  simp only [cleanTranscript]
  rw [if_neg hs]

/-! ### Whitespace normalization is the identity on whitespace-free text -/

theorem dropWhile_eq_self_of_all {p : Char → Bool} (l : Chars)
    (h : ∀ c ∈ l, p c = false) : l.dropWhile p = l := by
  cases l with
  | nil => rfl
  | cons c cs =>
    rw [List.dropWhile_cons, if_neg (by simp [h c (List.mem_cons_self _ _)])]

theorem collapseWsGo_eq_self_of_all (l : Chars) (h : ∀ c ∈ l, jsSpace c = false) :
    ∀ b, collapseWsGo l b = l := by
  induction l with
  | nil => intro b; rfl
  | cons c cs ih =>
    intro b
    unfold collapseWsGo
    rw [if_neg (by simp [h c (List.mem_cons_self _ _)])]
    rw [ih (fun x hx => h x (List.mem_cons_of_mem _ hx)) false]

theorem normalizeTranscript_eq_self_of_all (s : String)
    (h : ∀ c ∈ s.data, jsSpace c = false) : normalizeTranscript s = s := by
  unfold normalizeTranscript collapseWs jsTrim
  rw [collapseWsGo_eq_self_of_all _ h false, dropWhile_eq_self_of_all _ h,
    dropWhile_eq_self_of_all _ (fun c hc => h c (List.mem_reverse.mp hc)),
    List.reverse_reverse]

theorem hugeTranscript_norm : normalizeTranscript hugeTranscript = hugeTranscript := by
  apply normalizeTranscript_eq_self_of_all
  intro c hc
  rw [List.eq_of_mem_replicate hc]
  rfl

theorem hugeTranscript_len : hugeTranscript.data.length = 60000 :=
  List.length_replicate _ _

theorem processMeeting_fields (s : String) (tier : String) (r : TranscriptAnalysis)
    (h : processMeeting (some s) tier = .ok r) :
    r.ticketMentions = extractTicketMentions r.transcript ∧
    r.summary = generateBasicSummary r.transcript (config tier).summaryLength ∧
    r.actionItems = extractActionItems r.transcript ∧
    r.keyDecisions = extractKeyDecisions r.transcript ∧
    r.participants = identifyParticipants r.transcript ∧
    r.wordCount = (splitSpace r.transcript.data).length ∧
    cleanTranscript (some s) (config tier).maxTranscriptLength = .ok r.transcript := by
  simp only [processMeeting] at h
  cases hc : cleanTranscript (some s) (config tier).maxTranscriptLength with
  | error e =>
    rw [hc] at h
    exact absurd h (by simp)
  | ok clean =>
    rw [hc] at h
    injection h with h'
    subst h'
    refine ⟨rfl, ?_, rfl, rfl, rfl, rfl, rfl⟩
    by_cases ht : tier = "ai"
    · simp [ht, generateAISummary]
    · simp [ht]

theorem processMeeting_isOk_iff (transcript : Option String) (tier : String) :
    (processMeeting transcript tier).isOk = false ↔
      transcript = none ∨ transcript = some "" := by
  cases transcript with
  | none =>
    simp [processMeeting, cleanTranscript, Except.isOk, Except.toBool]
  | some s =>
    by_cases hs : s = ""
    · subst hs
      simp [processMeeting, cleanTranscript, Except.isOk, Except.toBool]
    · have hok : ∃ c, cleanTranscript (some s) (config tier).maxTranscriptLength = .ok c := by
        simp only [cleanTranscript]
        rw [if_neg hs]
        cases (config tier).maxTranscriptLength with
        | none => exact ⟨_, rfl⟩
        | some m =>
          dsimp only
          by_cases hlen : m < (normalizeTranscript s).data.length
          · rw [if_pos hlen]
            exact ⟨_, rfl⟩
          · rw [if_neg hlen]
            exact ⟨_, rfl⟩
      obtain ⟨c, hc⟩ := hok
      constructor
      · intro h
        exfalso
        simp only [processMeeting, hc, Except.isOk, Except.toBool] at h
        exact Bool.noConfusion h
      · rintro (h | h)
        · exact absurd h (by simp)
        · exact absurd (Option.some.inj h) hs

theorem config_fallback (tier : String) (h1 : tier ≠ "basic") (h2 : tier ≠ "ai")
    (h3 : tier ∉ objectProtoProps) : config tier = basicConfig := by
  unfold config
  rw [if_neg h1, if_neg h2, if_neg h3]

theorem config_proto (tier : String) (h1 : tier ≠ "basic") (h2 : tier ≠ "ai")
    (h3 : tier ∈ objectProtoProps) : config tier = protoConfig := by
  unfold config
  rw [if_neg h1, if_neg h2, if_pos h3]

theorem processMeeting_unknown_tier (tier : String) (h1 : tier ≠ "basic") (h2 : tier ≠ "ai")
    (h3 : tier ∉ objectProtoProps) (transcript : Option String) :
    processMeeting transcript tier =
      (processMeeting transcript "basic").map (fun r => { r with processingTier := tier }) := by
  simp only [processMeeting, config_fallback tier h1 h2 h3]
  have hb : config "basic" = basicConfig := rfl
  rw [hb]
  cases hcl : cleanTranscript transcript basicConfig.maxTranscriptLength with
  | error e => rfl
  | ok clean =>
    simp only [Except.map]
    rw [if_neg h2]
    simp

end MeetingSync

namespace TextProcessor

open MeetingSync

theorem foldl_add_counts (ws : List String) (l : Chars) :
    ∀ init : ℚ, ws.foldl (fun sc w => sc + (countOccur w.data l : ℚ)) init
      = init + ((ws.map fun w => (countOccur w.data l : ℚ)).sum) := by
  induction ws with
  | nil => intro init; simp
  | cons w rest ih =>
    intro init
    simp only [List.foldl_cons, List.map_cons, List.sum_cons, ih]
    ring

theorem foldl_sub_counts (ws : List String) (l : Chars) :
    ∀ init : ℚ, ws.foldl (fun sc w => sc - (countOccur w.data l : ℚ)) init
      = init - ((ws.map fun w => (countOccur w.data l : ℚ)).sum) := by
  induction ws with
  | nil => intro init; simp
  | cons w rest ih =>
    intro init
    simp only [List.foldl_cons, List.map_cons, List.sum_cons, ih]
    ring

theorem analyzeSentiment_eq (text : String) :
    analyzeSentiment text =
      max (-1) (min 1 (sentimentRaw text
        / max (((splitSpace text.data).length : ℚ) * (1/10)) 1)) := by
  simp only [analyzeSentiment]
  rw [foldl_sub_counts, foldl_add_counts]
  unfold sentimentRaw
  ring_nf

theorem analyzeSentiment_bounds (text : String) :
    -1 ≤ analyzeSentiment text ∧ analyzeSentiment text ≤ 1 := by
  simp only [analyzeSentiment]
  exact ⟨le_max_left _ _, max_le (by norm_num) (min_le_left _ _)⟩

theorem countOccur_nil (w : Chars) : countOccur w [] = 0 := by
  unfold countOccur scanWith
  have h : (List.range (List.length ([] : Chars) + 1)).filterMap (fun p =>
      (if w ≠ [] && w.isPrefixOf (([] : Chars).drop p) then some (w.length, ()) else none).map
        fun r => (⟨p, r.1, r.2⟩ : RxMatch Unit)) = [] := by
    cases w with
    | nil => decide
    | cons c cs => simp [List.range_succ, List.isPrefixOf]
  rw [h]
  rfl

theorem sentimentRaw_empty : sentimentRaw "" = 0 := by
  have hdata : ("" : String).data.map Char.toLower = [] := rfl
  unfold sentimentRaw
  rw [hdata]
  simp [positiveWords, negativeWords, countOccur_nil]

theorem analyzeSentiment_empty : analyzeSentiment "" = 0 := by
  rw [analyzeSentiment_eq, sentimentRaw_empty]
  have hwc : (splitSpace ("" : String).data).length = 1 := by decide
  rw [hwc]
  norm_num

end TextProcessor

/-! ## The claims -/

open MeetingSync TextProcessor

/-- C1 (amended): for every transcript, the ticket-mention extractor returns
exactly one entry per unique ticket id under case-SENSITIVE exact string
comparison — the first match in the pattern-major scan order wins — and every
stored id has the shape letters{2,10} dash digits+, in its source casing (the
`i`-flagged ticket/issue patterns do not normalize to upper-case). -/
theorem ticket_mentions_dedup_firstSeen (t : String) :
    ((extractTicketMentions t).map (·.ticketId)).Nodup ∧
    (extractTicketMentions t).map (·.ticketId)
      = firstWins ((ticketPatternMatches t.data).map (·.val)) [] ∧
    (extractTicketMentions t).all (fun m => ticketIdShapeB m.ticketId) = true := by
  refine ⟨?_, ticketLoop_map_ticketId t.data _ [], ?_⟩
  · show ((ticketLoop t.data (ticketPatternMatches t.data) []).map (·.ticketId)).Nodup
    rw [ticketLoop_map_ticketId t.data _ []]
    exact (firstWins_nodup_disjoint _ []).1
  · rw [List.all_eq_true]
    intro m hm
    rcases ticketLoop_mem t.data _ [] m hm with ⟨mm, hmm, he⟩
    rw [he]
    show ticketIdShapeB mm.val = true
    exact ticketPatternMatches_shape t.data mm hmm

/-- C1 counterexample: on "Fix ticket proj-7 and PROJ-7 now" the extractor
returns TWO entries whose ids differ only in case (so dedup is not
case-insensitive), stores the lowercase id "proj-7" (so ids are not
upper-cased and do not match `[A-Z]{2,10}-\d+`), and lists the later-position
match first (so output is not in first-seen position order). -/
theorem ticket_mentions_case_cex :
    (extractTicketMentions "Fix ticket proj-7 and PROJ-7 now").map (·.ticketId)
        = ["PROJ-7", "proj-7"] ∧
    (extractTicketMentions "Fix ticket proj-7 and PROJ-7 now").map (·.position) = [22, 4] ∧
    ("proj-7" : String).data.map Char.toLower = ("PROJ-7" : String).data.map Char.toLower ∧
    ¬ ∃ c ∈ ("proj-7" : String).data, c.isUpper := by
  refine ⟨by decide, by decide, by decide, by decide⟩

/-- C2 (amended): `processMeeting` fails if and only if the transcript
argument is missing or not a string (modelled by `none`) or is the empty
string (falsy in JS).  A whitespace-only transcript — empty after trimming —
is NOT rejected: validation happens before trimming. -/
theorem processMeeting_invalid_input_iff (transcript : Option String) (tier : String) :
    (processMeeting transcript tier).isOk = false ↔
      transcript = none ∨ transcript = some "" :=
  processMeeting_isOk_iff transcript tier

/-- C2 counterexample: a single-space transcript is empty after trimming but
`processMeeting` succeeds on it — no invalid-input error is raised. -/
theorem processMeeting_whitespace_cex :
    (processMeeting (some " ") "basic").isOk = true ∧ jsTrim (" " : String).data = [] := by
  refine ⟨by decide, by decide⟩

/-- C3 (confirmed): the basic tier allows 50000 characters; a normalized
transcript longer than the max is truncated to exactly the max plus the
3-character "..." marker before any extraction; transcripts at or under the
max pass through unchanged apart from whitespace normalization; all
extractors and the word count operate on the (possibly truncated) stored
transcript, whose length is max + 3 whenever truncation fired. -/
theorem transcript_truncation_spec :
    ((config "basic").maxTranscriptLength = some 50000 ∧
      (config "basic").summaryLength = some 500) ∧
    (∀ s m, m < (normalizeTranscript s).data.length →
        cleanTranscript (some s) (some m)
            = .ok ⟨(normalizeTranscript s).data.take m ++ "...".data⟩ ∧
          ∀ r, cleanTranscript (some s) (some m) = .ok r → r.data.length = m + 3) ∧
    (∀ s m, s ≠ "" → (normalizeTranscript s).data.length ≤ m →
        cleanTranscript (some s) (some m) = .ok (normalizeTranscript s)) ∧
    (∀ s tier r, processMeeting (some s) tier = .ok r →
        r.ticketMentions = extractTicketMentions r.transcript ∧
        r.summary = generateBasicSummary r.transcript (config tier).summaryLength ∧
        r.actionItems = extractActionItems r.transcript ∧
        r.keyDecisions = extractKeyDecisions r.transcript ∧
        r.participants = identifyParticipants r.transcript ∧
        r.wordCount = (splitSpace r.transcript.data).length ∧
        ∀ M, (config tier).maxTranscriptLength = some M →
          M < (normalizeTranscript s).data.length →
          r.transcript.data.length = M + 3) := by
  refine ⟨⟨rfl, rfl⟩, cleanTranscript_truncates,
    fun s m hs h => cleanTranscript_passthrough s hs m h, fun s tier r h => ?_⟩
  obtain ⟨h1, h2, h3, h4, h5, h6, h7⟩ := processMeeting_fields s tier r h
  refine ⟨h1, h2, h3, h4, h5, h6, fun M hM hex => ?_⟩
  rw [hM] at h7
  exact (cleanTranscript_truncates s M hex).2 _ h7

theorem transcript_truncation_spec_witness :
    (cleanTranscript (some "a  bb  cc") (some 5)
        = .ok ⟨(normalizeTranscript "a  bb  cc").data.take 5 ++ "...".data⟩ ∧
      ∀ r, cleanTranscript (some "a  bb  cc") (some 5) = .ok r → r.data.length = 5 + 3) ∧
    cleanTranscript (some "hi there") (some 50000) = .ok (normalizeTranscript "hi there") ∧
    (⟨"A", [], msgTooShort, [], [], [], "basic", 1⟩ : TranscriptAnalysis).ticketMentions
      = extractTicketMentions
          (⟨"A", [], msgTooShort, [], [], [], "basic", 1⟩ : TranscriptAnalysis).transcript :=
  ⟨transcript_truncation_spec.2.1 "a  bb  cc" 5 (by decide),
   transcript_truncation_spec.2.2.1 "hi there" 50000 (by decide) (by decide),
   (transcript_truncation_spec.2.2.2 "A" "basic" _ (by rfl)).1⟩

/-- C4 (amended): all three confidence scores follow the same
base-plus-increment-per-matched-indicator-group shape, clamped at 1.0 — but
the action-item increment is 0.15 (base 0.3), while decisions use increment
0.1 (base 0.4) and ticket mentions use increment 0.1 (base 0.5). -/
theorem confidence_rule_shape (s ctx tid : String) :
    calculateActionConfidence s
        = min ((3:ℚ)/10
            + (3/20) * ((actionIndicators.filter fun i => testWordAlts i s).length : ℚ)) 1 ∧
    calculateDecisionConfidence s
        = min ((2:ℚ)/5
            + (1/10) * ((decisionIndicators.filter fun i => testWordAlts i s).length : ℚ)) 1 ∧
    calculateMentionConfidence ctx tid
        = min ((1:ℚ)/2
            + (1/10) * ((mentionIndicators.filter fun i => testWordAlts i ctx).length : ℚ)) 1 := by
  refine ⟨?_, ?_, ?_⟩
  · unfold calculateActionConfidence
    rw [addIndicators_eq]
  · unfold calculateDecisionConfidence
    rw [addIndicators_eq]
  · unfold calculateMentionConfidence
    rw [addIndicators_eq]

/-- C4 counterexample: "Bob will fix it" matches exactly one action indicator
group, and its confidence is 0.3 + 0.15 = 0.45, not the 0.3 + 0.1 = 0.4 the
claim's fixed 0.1 increment predicts. -/
theorem action_confidence_increment_cex :
    calculateActionConfidence "Bob will fix it" = 9/20 ∧
    (actionIndicators.filter fun i => testWordAlts i "Bob will fix it").length = 1 ∧
    ((9 : ℚ)/20 ≠ 3/10 + (1/10) * 1) := by
  have hcount : (actionIndicators.filter fun i => testWordAlts i "Bob will fix it").length = 1 :=
    by decide
  refine ⟨?_, hcount, by norm_num⟩
  unfold calculateActionConfidence
  rw [addIndicators_eq, hcount]
  rw [min_eq_left (by norm_num)]
  norm_num

/-- C5 (amended): the summary never exceeds the configured maximum on the
short-transcript branch and on the scoring branch (any max ≥ 42, in
particular the basic tier's 500) — but NOT on the branch with at most 3
qualifying sentences, where the joined sentences are returned untruncated. -/
theorem summary_length_bound (t : String) (m : Nat) (h42 : 42 ≤ m)
    (h : t.data.length < 50 ∨ 3 < (qualSentences t.data).length) :
    (generateBasicSummary t (some m)).data.length ≤ m ∧
      (config "basic").summaryLength = some 500 :=
  ⟨generateBasicSummary_length_le t m h42 h, rfl⟩

theorem summary_length_bound_witness :
    (generateBasicSummary chronologyExample (some 500)).data.length ≤ 500 ∧
      (config "basic").summaryLength = some 500 :=
  summary_length_bound chronologyExample 500 (by decide) (Or.inr (by decide))

set_option maxRecDepth 10000 in
/-- C5 counterexample: a 600-character transcript with no terminal
punctuation is one qualifying sentence, so the ≤3-sentences branch returns
it joined and un-truncated: the summary has 600 characters, exceeding the
basic tier's 500-character maximum. -/
theorem summary_length_cex :
    (generateBasicSummary longSingleSentence (some 500)).data.length = 600 ∧
    (config "basic").summaryLength = some 500 ∧ ¬ (600 ≤ 500) := by
  refine ⟨by decide, rfl, by omega⟩

/-- C6 (confirmed): every confidence attached to a produced ticket mention,
action item or key decision lies in [0, 1]. -/
theorem confidence_bounds (t : String) :
    (∀ m ∈ extractTicketMentions t, 0 ≤ m.confidence ∧ m.confidence ≤ 1) ∧
    (∀ a ∈ extractActionItems t, 0 ≤ a.confidence ∧ a.confidence ≤ 1) ∧
    (∀ d ∈ extractKeyDecisions t, 0 ≤ d.confidence ∧ d.confidence ≤ 1) := by
  refine ⟨?_, ?_, ?_⟩
  · intro m hm
    rcases ticketLoop_mem t.data _ [] m hm with ⟨mm, _, he⟩
    rw [he]
    exact calculateMentionConfidence_bounds (extractMentionContext t.data mm.pos mm.val) mm.val
  · intro a ha
    have h3 := removeDuplicateActions_subset _ _
      (List.mem_of_mem_filter (List.mem_of_mem_take ha))
    rcases actionCandidates_conf _ _ h3 with ⟨s, hs⟩
    rw [hs]
    exact calculateActionConfidence_bounds s
  · intro d hd
    have h3 := removeDuplicateDecisions_subset _ _
      (List.mem_of_mem_filter (List.mem_of_mem_take hd))
    rcases decisionCandidates_conf _ _ h3 with ⟨s, hs⟩
    rw [hs]
    exact calculateDecisionConfidence_bounds s

theorem confidence_bounds_witness :
    0 ≤ ((extractTicketMentions "Fix AB-1 now").get ⟨0, by decide⟩).confidence ∧
      ((extractTicketMentions "Fix AB-1 now").get ⟨0, by decide⟩).confidence ≤ 1 :=
  (confidence_bounds "Fix AB-1 now").1 _ (List.get_mem _ _ _)

/-- C7 (amended): in MeetingProcessor.generateBasicSummary the selected
sentences are re-sorted into original transcript order before joining (their
indices are monotone and duplicate-free), and on the scoring branch the
returned summary is exactly the join of that re-sorted selection (possibly
truncated).  The parallel TextProcessor.generateSummary, however, joins its
top-3 selection in score order without re-sorting. -/
theorem summary_chronological_selection :
    (∀ sentences : List Chars,
        ((summaryTop sentences).map (·.index)).Pairwise (· ≤ ·) ∧
        ((summaryTop sentences).map (·.index)).Nodup) ∧
    (∀ (t : String) (m : Option Nat), ¬ t.data.length < 50 →
        ¬ (qualSentences t.data).length ≤ 3 →
        generateBasicSummary t m =
          (let summary :=
            joinSep ". ".data ((summaryTop (qualSentences t.data)).map (·.sentence.data))
           let summary2 :=
             match m with
             | some mm =>
               if mm < summary.length then summary.take (mm - 3) ++ "...".data else summary
             | none => summary
           if summary2.isEmpty then msgUnable else ⟨summary2⟩)) :=
  ⟨fun ss => ⟨summaryTop_index_mono ss, summaryTop_index_nodup ss⟩,
   generateBasicSummary_eq_scoring⟩

theorem summary_chronological_selection_witness :
    generateBasicSummary chronologyExample (some 500) =
      (let summary := joinSep ". ".data
          ((summaryTop (qualSentences chronologyExample.data)).map (·.sentence.data))
       let summary2 :=
         if 500 < summary.length then summary.take (500 - 3) ++ "...".data else summary
       if summary2.isEmpty then msgUnable else ⟨summary2⟩) :=
  summary_chronological_selection.2 chronologyExample (some 500) (by decide) (by decide)

/-- C7 counterexample: in the transcript the sentence "Alpha beta gamma
delta" precedes "We decided we will act", but TextProcessor.generateSummary
emits the higher-scoring later sentence FIRST — the summary is in score
order, not chronological order. -/
theorem textprocessor_summary_order_cex :
    appearsBefore ("Alpha beta gamma delta" : String).data
        ("We decided we will act" : String).data chronologyCexText.data = true ∧
    appearsBefore ("We decided we will act" : String).data
        ("Alpha beta gamma delta" : String).data
        (TextProcessor.generateSummary chronologyCexText).data = true := by
  refine ⟨by decide, by decide⟩

/-- C8 (confirmed): the sentiment score always equals the clamped normalized
net word-occurrence count — (positives − negatives) divided by
max(wordCount·0.1, 1), clamped to [-1, 1] — and is 0 on the empty string. -/
theorem sentiment_spec :
    (∀ text : String,
        analyzeSentiment text = max (-1) (min 1 (sentimentRaw text
          / max (((splitSpace text.data).length : ℚ) * (1/10)) 1)) ∧
        -1 ≤ analyzeSentiment text ∧ analyzeSentiment text ≤ 1) ∧
    analyzeSentiment "" = 0 :=
  ⟨fun text => ⟨analyzeSentiment_eq text, (analyzeSentiment_bounds text).1,
    (analyzeSentiment_bounds text).2⟩, analyzeSentiment_empty⟩

/-- C9 (amended): the participant identifier returns at most 10 distinct
names, and a matched token is accepted only if its length is STRICTLY
between 2 and 20 — so a 2-character name such as "Al" is rejected — while
the case-insensitive said/thanks patterns also accept lowercase tokens. -/
theorem participants_props (t : String) :
    (identifyParticipants t).length ≤ 10 ∧ (identifyParticipants t).Nodup ∧
      ∀ n ∈ identifyParticipants t, 2 < n.data.length ∧ n.data.length < 20 :=
  identifyParticipants_props t

theorem participants_props_witness :
    (2 < ("John" : String).data.length ∧ ("John" : String).data.length < 20) ∧
      (identifyParticipants "John said yes").length ≤ 10 :=
  ⟨(participants_props "John said yes").2.2 "John" (by decide),
   (participants_props "John said yes").1⟩

/-- C9 counterexample: "Al said ..." yields NO participant (the code requires
length > 2, rejecting the 2-character name the claim says is accepted), and
the lowercase "bob said ..." IS accepted (the `i` flag defeats the
uppercase-then-lowercase requirement). -/
theorem participants_short_name_cex :
    identifyParticipants "Al said hello everyone" = [] ∧
    ("Al" : String).data.length = 2 ∧
    identifyParticipants "bob said hello" = ["bob"] := by
  refine ⟨by decide, by decide, by decide⟩

/-- C10 (amended): a tier other than "basic" and "ai" that does not name an
Object.prototype member silently falls back to the basic configuration
(max length 50000, summary length 500), and the output then matches the
"basic" output in every field EXCEPT `processingTier`, which echoes the
caller's tier string (timestamps aside).  A tier string naming an
Object.prototype member (such as "constructor" or "toString") instead hits
the truthy inherited member, so the fallback never fires, both length
limits are undefined, and the transcript is never truncated at all. -/
theorem tier_fallback :
    (∀ tier : String, tier ≠ "basic" → tier ≠ "ai" → tier ∉ objectProtoProps →
      config tier = basicConfig ∧
      ∀ transcript, processMeeting transcript tier =
        (processMeeting transcript "basic").map
          fun r => { r with processingTier := tier }) ∧
    (∀ tier ∈ objectProtoProps,
      config tier = protoConfig ∧
      ∀ s : String, s ≠ "" →
        cleanTranscript (some s) (config tier).maxTranscriptLength
          = .ok (normalizeTranscript s)) := by
  constructor
  · intro tier h1 h2 h3
    exact ⟨config_fallback tier h1 h2 h3, processMeeting_unknown_tier tier h1 h2 h3⟩
  · intro tier h3
    have h1 : tier ≠ "basic" := by
      rintro rfl
      revert h3
      decide
    have h2 : tier ≠ "ai" := by
      rintro rfl
      revert h3
      decide
    have hc := config_proto tier h1 h2 h3
    refine ⟨hc, fun s hs => ?_⟩
    rw [hc]
    exact cleanTranscript_undefined_max s hs

theorem tier_fallback_witness :
    (config "enterprise" = basicConfig ∧
      processMeeting (some "Quick sync done") "enterprise" =
        (processMeeting (some "Quick sync done") "basic").map
          fun r => { r with processingTier := "enterprise" }) ∧
    (config "toString" = protoConfig ∧
      cleanTranscript (some "hi there") (config "toString").maxTranscriptLength
        = .ok (normalizeTranscript "hi there")) :=
  ⟨⟨(tier_fallback.1 "enterprise" (by decide) (by decide) (by decide)).1,
    (tier_fallback.1 "enterprise" (by decide) (by decide) (by decide)).2
      (some "Quick sync done")⟩,
   (tier_fallback.2 "toString" (by decide)).1,
   (tier_fallback.2 "toString" (by decide)).2 "hi there" (by decide)⟩

/-- C10 counterexample: the outputs for tier "enterprise" and tier "basic"
differ in `processingTier`; worse, for the prototype-chain tier
"constructor" the config lookup is truthy with undefined limits, so a
60000-character transcript passes through untruncated while tier "basic"
truncates it to 50003 characters — the outputs differ beyond
`processingTier`. -/
theorem tier_output_differs_cex :
    ((processMeeting (some "Quick sync done") "enterprise").toOption.map (·.processingTier))
      = some "enterprise" ∧
    ((processMeeting (some "Quick sync done") "basic").toOption.map (·.processingTier))
      = some "basic" ∧
    ("enterprise" : String) ≠ "basic" ∧
    cleanTranscript (some hugeTranscript) (config "constructor").maxTranscriptLength
      = .ok hugeTranscript ∧
    cleanTranscript (some hugeTranscript) (config "basic").maxTranscriptLength
      = .ok ⟨hugeTranscript.data.take 50000 ++ "...".data⟩ ∧
    hugeTranscript.data.length = 60000 ∧
    (hugeTranscript.data.take 50000 ++ "...".data).length = 50003 := by
  have hnorm : normalizeTranscript hugeTranscript = hugeTranscript := hugeTranscript_norm
  have hlen : hugeTranscript.data.length = 60000 := hugeTranscript_len
  have hne : hugeTranscript ≠ "" := by decide
  refine ⟨by decide, by decide, by decide, ?_, ?_, hlen, ?_⟩
  · have h := cleanTranscript_undefined_max hugeTranscript hne
    rw [hnorm] at h
    exact h
  · have h := (cleanTranscript_truncates hugeTranscript 50000
      (by rw [hnorm, hlen]; decide)).1
    rw [hnorm] at h
    exact h
  · rw [List.length_append, List.length_take, hlen]
    rfl
